import Mathlib

/-!
Verification of the Too-Hot-To-Prandtl control system.

This file shallowly embeds the packet codec, the MCU application loop, the
host-side serial reader, and the host control fuser of the repository, and
proves (or refutes) the specification claims about them.

Modelling conventions:
* Bytes are natural numbers; byte buffers are lists of naturals.
* Machine integers are `Nat`/`Int` with explicit width bounds in the
  well-formedness predicates (u32 fields are `Nat` values below 2^32,
  the Q13.3 percentage bits are an `Int` in the i16 range).
* The `postcard` wire format used by `common/src/packet.rs` is embedded at
  byte level: unsigned LEB128 varints with postcard's width limits, zigzag
  varints for signed integers, enum variant indices as u32 varints, fixed
  arrays as raw bytes and strings as a length varint followed by the
  content bytes.  The `usize` string-length varint is modelled at the
  MCU's 32-bit width.  UTF-8 validity of log-line content is modelled as
  ASCII (all content bytes below 128); multi-byte UTF-8 is not modelled.
* Rust functions that can panic or return `Err` are modelled as `Option`
  valued functions (`none` = panic/error).
* `f32` arithmetic of the host control fuser is modelled over `ℚ`; the
  fixed-point Q13.3 quantisation of `Percentage` (round to nearest) is
  modelled by `round`.  All claim instances are evaluated at inputs where
  the quantisation step absorbs the difference between `f32` rounding and
  exact rational arithmetic.
-/
/-! ## Wire value types (common/src/physical, common/src/packet.rs) -/
/-- Model of `ValveState` from `common/src/packet.rs` (also `common/src/physical/valve.rs`):
the five-variant valve state sum type, in declaration order. -/
inductive ValveState : Type
  | Open : ValveState
  | Closed : ValveState
  | Opening : ValveState
  | Closing : ValveState
  | Unknown : ValveState
deriving DecidableEq, Repr

/-- Model of `ValveState::from((bool, bool))` from `common/src/packet.rs`:
`(true, false)` is `Open`, `(false, true)` is `Closed`, anything else `Unknown`. -/
def valveStateFromPins : Bool × Bool → ValveState
  | (true, false) => ValveState.Open
  | (false, true) => ValveState.Closed
  | _ => ValveState.Unknown

/-- Model of `Percentage` from `common/src/physical/percentage.rs`: a Q13.3 fixed-point
value (`I13F3`), stored here as its raw bit pattern (an `i16` in Rust), so the
represented percentage is `value / 8`. -/
structure Percentage : Type where
  value : Int
deriving DecidableEq, Repr

/-- The i16 representability bound for the Q13.3 bits of a `Percentage`. -/
def Percentage.wf (p : Percentage) : Prop :=
  -2 ^ 15 ≤ p.value ∧ p.value < 2 ^ 15

instance : DecidablePred Percentage.wf := fun p =>
  inferInstanceAs (Decidable (_ ∧ _))

/-- A `Percentage` as produced by `Percentage::try_from(f32)`: the source
accepts exactly values in `[0, 100]`, whose Q13.3 bit patterns are `0..=800`. -/
def Percentage.valid (p : Percentage) : Prop :=
  0 ≤ p.value ∧ p.value ≤ 800

instance : DecidablePred Percentage.valid := fun p =>
  inferInstanceAs (Decidable (_ ∧ _))

/-- Model of `Rpm` from `common/src/physical/rpm.rs`: a pair of u32 fields storing
hundredths of an RPM (`max_speed_raw`, `speed_raw`). -/
structure Rpm : Type where
  max_speed_raw : Nat
  speed_raw : Nat
deriving DecidableEq, Repr

/-- u32 representability of the two `Rpm` fields. -/
def Rpm.wf (r : Rpm) : Prop :=
  r.max_speed_raw < 2 ^ 32 ∧ r.speed_raw < 2 ^ 32

instance : DecidablePred Rpm.wf := fun r =>
  inferInstanceAs (Decidable (_ ∧ _))

/-- An `Rpm` as accepted by `Rpm::new`: representable and `current ≤ max`
(the constructor rejects `current_speed > max_speed`). -/
def Rpm.valid (r : Rpm) : Prop :=
  r.wf ∧ r.speed_raw ≤ r.max_speed_raw

instance : DecidablePred Rpm.valid := fun r =>
  inferInstanceAs (Decidable (_ ∧ _))

/-- Model of `ReportSensorsPacket` from `common/src/packet.rs`, fields in declaration
(= serialization) order: fan RPM, pump RPM, valve state. -/
structure ReportSensorsPacket : Type where
  fan_speed_rpm : Rpm
  pump_speed_rpm : Rpm
  valve_state : ValveState
deriving DecidableEq, Repr

/-- Model of `ReportControlTargetsPacket` from `common/src/packet.rs`, fields in
declaration (= serialization) order: fan percent, pump percent, valve state. -/
structure ReportControlTargetsPacket : Type where
  fan_control_percent : Percentage
  pump_control_percent : Percentage
  valve_control_state : ValveState
deriving DecidableEq, Repr

/-- Model of `Packet` from `common/src/packet.rs`: the five-variant packet sum, in
declaration order (which fixes the serde variant indices 0..4).  The 8-byte
`special_pattern` arrays and the `str8` log line are byte lists. -/
inductive Packet : Type
  | RequestConnection (special_pattern : List Nat) : Packet
  | AcceptConnection (special_pattern : List Nat) : Packet
  | ReportSensors (body : ReportSensorsPacket) : Packet
  | ReportControlTargets (body : ReportControlTargetsPacket) : Packet
  | ReportLogLine (log_line : List Nat) : Packet
deriving DecidableEq, Repr

/-- The 8-byte handshake magic `ab2dwask` used by
`RequestConnectionPacket::new`. -/
def magicPattern : List Nat := [97, 98, 50, 100, 119, 97, 115, 107]

/-- Well-formedness of a `Packet` as a Rust in-memory value: fixed arrays have
length 8 and byte-valued entries, numeric fields are representable at their
widths, and the log line fits the `str8` capacity with ASCII content (the
modelled fragment of UTF-8). -/
def Packet.wf : Packet → Prop
  | Packet.RequestConnection m => m.length = 8 ∧ ∀ b ∈ m, b < 256
  | Packet.AcceptConnection m => m.length = 8 ∧ ∀ b ∈ m, b < 256
  | Packet.ReportSensors body => body.fan_speed_rpm.wf ∧ body.pump_speed_rpm.wf
  | Packet.ReportControlTargets body =>
      body.fan_control_percent.wf ∧ body.pump_control_percent.wf
  | Packet.ReportLogLine l => l.length ≤ 8 ∧ ∀ b ∈ l, b < 128

instance : DecidablePred Packet.wf := fun p => by
  cases p <;> exact inferInstanceAs (Decidable (_ ∧ _))

/-! ## The postcard byte codec

`postcard` (the serde format both nodes use through `postcard::to_vec` and
`postcard::take_from_bytes`) encodes unsigned integers as LEB128 varints,
capped at `varint_max` bytes for the integer width, with the final byte of a
maximal-length varint bounded by `max_of_last_byte`. -/
/-- Fuelled LEB128 varint encoder; `n + 1` fuel always suffices because each
step divides the value by 128. -/
def encodeVarintAux : Nat → Nat → List Nat
  | 0, _ => []
  | fuel + 1, n => if n < 128 then [n] else (n % 128 + 128) :: encodeVarintAux fuel (n / 128)

/-- LEB128 varint encoding of a natural number (postcard `try_push_varint`):
seven bits per byte, least significant group first, continuation bit `0x80`. -/
def encodeVarint (n : Nat) : List Nat :=
  encodeVarintAux (n + 1) n

/-- Postcard's varint decoding loop (`try_take_varint_u32` and friends):
`maxB` bytes at most, accumulating `(val AND 0x7f) <<< (7*i)` with the shifted
bits above the width `w` discarded, rejecting a final continuation-free byte
`≥ lastMax` in position `maxB - 1` and running out of bytes or positions. -/
def takeVarintAux (maxB lastMax w : Nat) : Nat → Nat → List Nat → Option (Nat × List Nat)
  | _, _, [] => none
  | i, acc, b :: rest =>
    if i ≥ maxB then none
    else
      if b < 128 then
        if i = maxB - 1 ∧ lastMax ≤ b then none
        else some (acc + b % 128 * 2 ^ (7 * i) % 2 ^ w, rest)
      else takeVarintAux maxB lastMax w (i + 1) (acc + b % 128 * 2 ^ (7 * i) % 2 ^ w) rest

/-- u32 varint decoding: at most 5 bytes, final byte below 16. -/
def takeVarint32 (bs : List Nat) : Option (Nat × List Nat) :=
  takeVarintAux 5 16 32 0 0 bs

/-- u16 varint decoding: at most 3 bytes, final byte below 4. -/
def takeVarint16 (bs : List Nat) : Option (Nat × List Nat) :=
  takeVarintAux 3 4 16 0 0 bs

/-- Zigzag encoding of a signed integer (postcard `zig_zag_i16`). -/
def zigzag (v : Int) : Nat :=
  if 0 ≤ v then (2 * v).toNat else (-2 * v - 1).toNat

/-- Zigzag decoding of a varint value (postcard `de_zig_zag_i16`). -/
def unzigzag (n : Nat) : Int :=
  if n % 2 = 0 then (n / 2 : Nat) else -((n / 2 : Nat) : Int) - 1

/-- Postcard `try_take_n`: take exactly `k` bytes or fail. -/
def takeBytes (k : Nat) (bs : List Nat) : Option (List Nat × List Nat) :=
  if bs.length < k then none else some (bs.take k, bs.drop k)

/-! ## Packet encoding and decoding (postcard serialization of `Packet`) -/
/-- Serde variant index of a `ValveState` (declaration order in
`common/src/packet.rs`). -/
def ValveState.idx : ValveState → Nat
  | ValveState.Open => 0
  | ValveState.Closed => 1
  | ValveState.Opening => 2
  | ValveState.Closing => 3
  | ValveState.Unknown => 4

/-- Postcard encoding of a `ValveState`: its variant index as a u32 varint. -/
def encodeValve (v : ValveState) : List Nat := encodeVarint v.idx

/-- Postcard decoding of a `ValveState`: a u32 varint variant index, failing on
indices outside 0..4. -/
def takeValve (bs : List Nat) : Option (ValveState × List Nat) :=
  match takeVarint32 bs with
  | none => none
  | some (i, rest) =>
    match i with
    | 0 => some (ValveState.Open, rest)
    | 1 => some (ValveState.Closed, rest)
    | 2 => some (ValveState.Opening, rest)
    | 3 => some (ValveState.Closing, rest)
    | 4 => some (ValveState.Unknown, rest)
    | _ => none

/-- Postcard encoding of a `Percentage`: its `I13F3` bits (an i16) as a zigzag
u16 varint. -/
def encodePercentage (p : Percentage) : List Nat := encodeVarint (zigzag p.value)

/-- Postcard decoding of a `Percentage`: a u16 varint, zigzag-decoded into the
`I13F3` bits (serde performs no range validation on deserialization). -/
def takePercentage (bs : List Nat) : Option (Percentage × List Nat) :=
  match takeVarint16 bs with
  | none => none
  | some (n, rest) => some (Percentage.mk (unzigzag n), rest)

/-- Postcard encoding of an `Rpm`: the two u32 fields as varints, in field
order (`max_speed_raw` then `speed_raw`); `PhantomData` contributes nothing. -/
def encodeRpm (r : Rpm) : List Nat :=
  encodeVarint r.max_speed_raw ++ encodeVarint r.speed_raw

/-- Postcard decoding of an `Rpm`: two u32 varints (no invariant check). -/
def takeRpm (bs : List Nat) : Option (Rpm × List Nat) :=
  match takeVarint32 bs with
  | none => none
  | some (maxRaw, rest) =>
    match takeVarint32 rest with
    | none => none
    | some (speedRaw, rest2) => some (Rpm.mk maxRaw speedRaw, rest2)

/-- Postcard encoding of a `str8` log line: length varint then content bytes. -/
def encodeStr (l : List Nat) : List Nat := encodeVarint l.length ++ l

/-- Postcard decoding of a `str8` log line: a `usize` length varint (modelled
at the MCU's 32-bit width), that many content bytes, a UTF-8 validity check
(modelled as ASCII: every byte below 128), and `fixedstr` truncation to the
modelled capacity of 8 bytes. -/
def takeStr (bs : List Nat) : Option (List Nat × List Nat) :=
  match takeVarint32 bs with
  | none => none
  | some (len, rest) =>
    match takeBytes len rest with
    | none => none
    | some (content, rest2) =>
      if content.all (fun b => b < 128) then some (content.take 8, rest2) else none

/-- Postcard encoding of a `Packet` (`postcard::to_vec` in
`write_packet_to_port` and `write_packets_to_usb`): the variant index as a u32
varint followed by the body fields in declaration order. -/
def encodePacket : Packet → List Nat
  | Packet.RequestConnection m => encodeVarint 0 ++ m
  | Packet.AcceptConnection m => encodeVarint 1 ++ m
  | Packet.ReportSensors body =>
      encodeVarint 2 ++ encodeRpm body.fan_speed_rpm ++ encodeRpm body.pump_speed_rpm ++
        encodeValve body.valve_state
  | Packet.ReportControlTargets body =>
      encodeVarint 3 ++ encodePercentage body.fan_control_percent ++
        encodePercentage body.pump_control_percent ++ encodeValve body.valve_control_state
  | Packet.ReportLogLine l => encodeVarint 4 ++ encodeStr l

/-- Concatenated encoding of a packet sequence (back-to-back frames on the
wire, §6 of the spec). -/
def encodePacketList (ps : List Packet) : List Nat :=
  (ps.map encodePacket).flatten

/-- Postcard decoding of one `Packet` from a byte buffer
(`postcard::take_from_bytes::<Packet>`): the parsed packet and the unconsumed
suffix, or `none` on any parse failure. -/
def takePacket (bs : List Nat) : Option (Packet × List Nat) :=
  match takeVarint32 bs with
  | none => none
  | some (tag, r0) =>
    match tag with
    | 0 =>
      match takeBytes 8 r0 with
      | none => none
      | some (m, rest) => some (Packet.RequestConnection m, rest)
    | 1 =>
      match takeBytes 8 r0 with
      | none => none
      | some (m, rest) => some (Packet.AcceptConnection m, rest)
    | 2 =>
      match takeRpm r0 with
      | none => none
      | some (fan, r1) =>
        match takeRpm r1 with
        | none => none
        | some (pump, r2) =>
          match takeValve r2 with
          | none => none
          | some (valve, r3) => some (Packet.ReportSensors (ReportSensorsPacket.mk fan pump valve), r3)
    | 3 =>
      match takePercentage r0 with
      | none => none
      | some (fan, r1) =>
        match takePercentage r1 with
        | none => none
        | some (pump, r2) =>
          match takeValve r2 with
          | none => none
          | some (valve, r3) =>
            some (Packet.ReportControlTargets (ReportControlTargetsPacket.mk fan pump valve), r3)
    | 4 =>
      match takeStr r0 with
      | none => none
      | some (l, rest) => some (Packet.ReportLogLine l, rest)
    | _ => none

/-! ## Greedy buffer decoding (both nodes)

`decode_packets_from_buffer` in `control_system/src/externals/client_sensors/task.rs`
and `Application::decode_bytes` in `embedded_firmware_core/src/application.rs`
run the same loop: `while let Ok((packet, rest)) = take_from_bytes(remaining)`.
The loop is modelled with a fuel parameter; every successful parse consumes at
least one byte, so `bs.length` steps of fuel always suffice. -/
def decodePacketsAux : Nat → List Nat → List Packet × List Nat
  | 0, bs => ([], bs)
  | fuel + 1, bs =>
    match takePacket bs with
    | none => ([], bs)
    | some (p, rest) =>
      let pr := decodePacketsAux fuel rest
      (p :: pr.1, pr.2)

/-- Model of `decode_packets_from_buffer` from
`control_system/src/externals/client_sensors/task.rs` (the identical loop is
`Application::decode_bytes` on the MCU): parse as many prefix packets as
possible, returning them together with the unconsumed remainder. -/
def decode_packets_from_buffer (bs : List Nat) : List Packet × List Nat :=
  decodePacketsAux bs.length bs

/-! ## Host serial reader and MCU queues -/
/-- Capacity-bounded push of a heapless `Vec<_, cap>`: appends at the tail,
silently dropping the item when the vector is full (`let _ = vec.push(x)`). -/
def vecPush {α : Type} (cap : Nat) (l : List α) (a : α) : List α :=
  if l.length < cap then l ++ [a] else l

/-- The loop body of `while let Some(x) = vec.pop()`: repeatedly remove the
tail element, with fuel (each pop removes exactly one element, so `l.length`
steps of fuel reproduce the full loop). -/
def vecPopAllAux {α : Type} : Nat → List α → List α
  | 0, _ => []
  | fuel + 1, l =>
    match l.getLast? with
    | none => []
    | some a => a :: vecPopAllAux fuel l.dropLast

/-- The order in which `while let Some(x) = vec.pop()` yields the elements of
a heapless Vec: pop removes the tail element first. -/
def vecPopAll {α : Type} (l : List α) : List α :=
  vecPopAllAux l.length l

/-- Model of `read_packets_from_port` from
`control_system/src/externals/client_sensors/task.rs`, given the bytes obtained
from one successful port read: the decoded prefix packets are returned and the
`remaining_bytes` of `decode_packets_from_buffer` are dropped (they are only
counted in a debug log line). -/
def read_packets_from_port (bytes_read : List Nat) : List Packet :=
  (decode_packets_from_buffer bytes_read).1

/-- Model of `Application::decode_bytes` from
`embedded_firmware_core/src/application.rs`: decode as many packets as
available from the buffer and push each onto the tail of the 16-entry
`incoming_packets` queue (pushes onto a full queue are ignored, and the
unused remainder bytes are thrown away).  Pushing never affects the
remaining parse, so the interleaved loop is decoded first here. -/
def decode_bytes (incoming : List Packet) (buffer : List Nat) : List Packet :=
  (decode_packets_from_buffer buffer).1.foldl (vecPush 16) incoming

/-! ## MCU application model (embedded_firmware_core/src/application.rs) -/
/-- Model of `Percentage::try_from(f32)` from `common/src/physical/percentage.rs`,
modelled over `ℚ`: reject values outside `[0, 100]`, otherwise store the
Q13.3 bits via `I13F3::from_num` (round to nearest, modelled by `round`). -/
def Percentage.tryFromRat (q : ℚ) : Option Percentage :=
  if q < 0 ∨ 100 < q then none else some ⟨round (q * 8)⟩

/-- Model of `to_rpm_speed` from `common/src/physical/rpm.rs`, modelled over `ℚ`:
negative input is rejected, otherwise `(raw * 100) as u32` truncates toward
zero (saturating at `u32::MAX`). -/
def to_rpm_speed (raw : ℚ) : Option Nat :=
  if raw < 0 then none else some (min (⌊raw * 100⌋.toNat) (2 ^ 32 - 1))

/-- Model of `Rpm::new` from `common/src/physical/rpm.rs`: convert both speeds and
reject `current_speed > max_speed` (note that `max_speed = 0` with
`speed = 0` is accepted). -/
def Rpm.new (max_speed speed : ℚ) : Option Rpm :=
  match to_rpm_speed max_speed with
  | none => none
  | some maxRaw =>
    match to_rpm_speed speed with
    | none => none
    | some currentRaw =>
      if maxRaw < currentRaw then none else some ⟨maxRaw, currentRaw⟩

/-- Model of `Rpm::into_percentage` from `common/src/physical/rpm.rs`:
`Percentage::try_from((speed / max_speed) * 100).expect(..)`.  The raw-field
ratio equals `speed() / max_speed()`.  When `max_speed_raw = 0` the `f32`
division is `0/0 = NaN`, which passes the range checks of `try_from` but makes
`I13F3::from_num` panic; the panic (and any `.expect` failure for ratios above
100%) is modelled as `none`. -/
def Rpm.into_percentage (r : Rpm) : Option Percentage :=
  if r.max_speed_raw = 0 then none
  else Percentage.tryFromRat ((r.speed_raw : ℚ) / (r.max_speed_raw : ℚ) * 100)

/-- The PWM state owned by `Application`: one shared `max_duty` (the source
queries `self.pwm.get_max_duty()` for both channels) and the two duties. -/
structure PwmState : Type where
  max_duty : Nat
  pump_duty : Nat
  fan_duty : Nat
deriving DecidableEq, Repr

/-- A Rust `expr as u32` cast applied to an `f32`, modelled on `ℚ`:
truncation toward zero, saturating into `[0, u32::MAX]`. -/
def f32CastU32 (q : ℚ) : Nat :=
  if q < 0 then 0 else min (⌊q⌋.toNat) (2 ^ 32 - 1)

/-- The duty computation of `Application::process_incoming_packets`:
`let duty_norm: f32 = percent.into(); (duty_norm * (max_duty as f32)) as u32`.
`Percentage`'s `Into<f32>` yields the percent number `value / 8` (a 0..100
value), so the product is `percent · max_duty` with no division by 100. -/
def dutyFromPercent (p : Percentage) (maxDuty : Nat) : Nat :=
  f32CastU32 ((p.value : ℚ) / 8 * maxDuty)

/-- One iteration of the `process_incoming_packets` loop: a
`ReportControlTargets` packet reprograms both PWM duties (no other packet
variant, and no valve output, is handled). -/
def process_one_packet (s : PwmState) : Packet → PwmState
  | Packet.ReportControlTargets body =>
    { s with
      pump_duty := dutyFromPercent body.pump_control_percent s.max_duty
      fan_duty := dutyFromPercent body.fan_control_percent s.max_duty }
  | _ => s

/-- Model of `Application::process_incoming_packets` from
`embedded_firmware_core/src/application.rs`: drain the `incoming_packets`
Vec with `while let Some(packet) = self.incoming_packets.pop()`, applying
control packets to the PWM state. -/
def process_incoming_packets (s : PwmState) (incoming : List Packet) : PwmState :=
  (vecPopAll incoming).foldl process_one_packet s

/-- Model of `Application::write_packets_to_usb` from
`embedded_firmware_core/src/application.rs`: drain `outgoing_packets` with
`pop()`, encoding each packet and writing it to the serial port; the value is
the byte stream written. -/
def write_packets_to_usb (outgoing : List Packet) : List Nat :=
  ((vecPopAll outgoing).map encodePacket).flatten

/-- The sensor-side inputs of one `report_sensors` cycle: the two ADC reads
(`None` = `ReadAdcFailure`) and the valve sense pin reads (`none` = a pin
read error, i.e. `ValveReadFailure` from `poll_valve_state_pins`). -/
structure SensorInputs : Type where
  pump_norm : Option ℚ
  fan_norm : Option ℚ
  valve_pins : Option (Bool × Bool)

/-- Model of `Application::report_sensors` from
`embedded_firmware_core/src/application.rs`: read the pump and fan ADC
channels, poll the valve sense pins (propagating `ValveReadFailure` with `?`),
build the two `Rpm` values with hard-coded maxima 2000/1800, and push a
`ReportSensors` packet onto `outgoing_packets`.  `none` models an early
`Err` return, in which case nothing is enqueued. -/
def report_sensors (inp : SensorInputs) (outgoing : List Packet) : Option (List Packet) :=
  match inp.pump_norm with
  | none => none
  | some pump_speed_raw =>
    match inp.fan_norm with
    | none => none
    | some fan_speed_raw =>
      match inp.valve_pins with
      | none => none
      | some valve_state_raw =>
        let valve_state := valveStateFromPins valve_state_raw
        match Rpm.new 2000 pump_speed_raw with
        | none => none
        | some pump_speed_rpm =>
          match Rpm.new 1800 fan_speed_raw with
          | none => none
          | some fan_speed_rpm =>
            some (vecPush 16 outgoing
              (Packet.ReportSensors ⟨fan_speed_rpm, pump_speed_rpm, valve_state⟩))

/-! ## Piecewise-linear curve evaluator (control_system/src/models/curve.rs)

`Curve<X, Y>` stores `(x, y)` control points; lookup interpolates between the
last point at or below `x` and the first point at or above `x`, clamping at
both ends.  `X` is instantiated at `Temperature` (host-only `f32` Celsius,
modelled as `ℚ`).  The generic `Y` operations (`Sub`, `Add`, `LinearInterp`)
are passed explicitly. -/
/-- One fold step of `Iterator::min_by` comparing `x`: keep the accumulator
unless the new point is strictly smaller (first of equally minimal wins). -/
def minByStep {Y : Type} (acc : Option (ℚ × Y)) (p : ℚ × Y) : Option (ℚ × Y) :=
  match acc with
  | none => some p
  | some q => if p.1 < q.1 then some p else some q

/-- One fold step of `Iterator::max_by` comparing `x`: replace the accumulator
unless it is strictly larger (last of equally maximal wins). -/
def maxByStep {Y : Type} (acc : Option (ℚ × Y)) (p : ℚ × Y) : Option (ℚ × Y) :=
  match acc with
  | none => some p
  | some q => if p.1 < q.1 then some q else some p

/-- Model of `Iterator::min_by` over the points, comparing `x`. -/
def minByX {Y : Type} (points : List (ℚ × Y)) : Option (ℚ × Y) :=
  points.foldl minByStep none

/-- Model of `Iterator::max_by` over the points, comparing `x`. -/
def maxByX {Y : Type} (points : List (ℚ × Y)) : Option (ℚ × Y) :=
  points.foldl maxByStep none

/-- Model of `Curve::find_last_point_before_x`: filter the points at or below `x`,
stable-sort them by `x` (`sort_by` + `partial_cmp`, modelled by
`insertionSort`), take the last, and fall back to the minimal point. -/
def find_last_point_before_x {Y : Type} (points : List (ℚ × Y)) (x : ℚ) : Option (ℚ × Y) :=
  match (List.insertionSort (fun a b => a.1 ≤ b.1)
      (points.filter (fun p => p.1 ≤ x))).getLast? with
  | some p => some p
  | none => minByX points

/-- Model of `Curve::find_first_point_after_x`: filter the points at or above `x`,
stable-sort them by `x`, take the first (`rev().last()`), and fall back to the
maximal point. -/
def find_first_point_after_x {Y : Type} (points : List (ℚ × Y)) (x : ℚ) : Option (ℚ × Y) :=
  match (List.insertionSort (fun a b => a.1 ≤ b.1)
      (points.filter (fun p => x ≤ p.1))).head? with
  | some p => some p
  | none => maxByX points

/-- Model of `Curve::lookup`: locate the bracketing control points, return the exact
`y` when the bracket degenerates, otherwise
`y₁ + (y₂ − y₁).scale((x − x₁) / (x₂ − x₁))`.  The source calls `.unwrap()`
on the two finders; an impossible `None` (empty curve) is modelled as
`none`. -/
def curveLookup {Y : Type} (add sub : Y → Y → Y) (scale : Y → ℚ → Y)
    (points : List (ℚ × Y)) (x : ℚ) : Option Y :=
  match find_last_point_before_x points x, find_first_point_after_x points x with
  | some xy1, some xy2 =>
    if xy1.1 = xy2.1 then some xy1.2
    else some (add xy1.2 (scale (sub xy2.2 xy1.2) ((x - xy1.1) / (xy2.1 - xy1.1))))
  | _, _ => none

/-- Model of `Curve::new`: reject empty point lists, keep everything else. -/
def curveNew {Y : Type} (points : List (ℚ × Y)) : Option (List (ℚ × Y)) :=
  if points.isEmpty then none else some points

/-- The curve evaluator at `Y = ℚ`, with the numeric instances the source uses
for scalar curves (`LinearInterp for f32` is `self * x`). -/
def lookupQ (points : List (ℚ × ℚ)) (x : ℚ) : Option ℚ :=
  curveLookup (fun a b => a + b) (fun a b => a - b) (fun a t => a * t) points x

/-- Default-0 minimum of a list of rationals (used to state the curve bounds
claim for nonempty curves). -/
def listMinD : List ℚ → ℚ
  | [] => 0
  | a :: t => t.foldl min a

/-- Default-0 maximum of a list of rationals. -/
def listMaxD : List ℚ → ℚ
  | [] => 0
  | a :: t => t.foldl max a

/-! ## Host control fuser (control_system/src/controls.rs)

`controls.rs` matches the curve lookups against `Option` and uses
`Temperature`, `HostSensorData`, a current `ClientSensorData` and the curve
`Y`-operations for `Percentage`; those support modules are missing from the
source snapshot (the shipped `models/` files are a stale generation), so they
are modelled from the spec where noted. -/
/-- Modelled from the spec: the missing `Add` impl of `Percentage` used by the
curve evaluator (§4.3 computes `y₁ + (y₂ − y₁)·t`); exact Q13.3 bit addition. -/
def Percentage.addP (p q : Percentage) : Percentage := ⟨p.value + q.value⟩

/-- Modelled from the spec: the missing `Sub` impl of `Percentage` for the
curve evaluator; exact Q13.3 bit subtraction (intermediate differences may be
negative). -/
def Percentage.subP (p q : Percentage) : Percentage := ⟨p.value - q.value⟩

/-- Modelled from the spec: the missing `LinearInterp::scale` impl of
`Percentage` — scale the percentage value by an `f32` factor; the Q13.3
result is requantised to the nearest step. -/
def Percentage.scaleP (p : Percentage) (t : ℚ) : Percentage := ⟨round ((p.value : ℚ) * t)⟩

/-- The curve evaluator at `Y = Percentage` (temperature-to-percentage curves
of `controls.rs`). -/
def percentLookup (points : List (ℚ × Percentage)) (x : ℚ) : Option Percentage :=
  curveLookup Percentage.addP Percentage.subP Percentage.scaleP points x

/-- Modelled from the spec: for `ValveState`-valued curves interpolation is
replaced by the nearest control point at or below `x` (step function, §4.3);
realised with the source's `find_last_point_before_x`, whose fallback yields
the minimum point below the smallest `x`. -/
def valveLookup (points : List (ℚ × ValveState)) (x : ℚ) : Option ValveState :=
  (find_last_point_before_x points x).map Prod.snd

/-- Model of `PUMP_CURVE` from `control_system/src/controls.rs`:
`(0 °C, 30%), (50, 30%), (80, 90%), (85, 100%)` as Q13.3 bits. -/
def PUMP_CURVE : List (ℚ × Percentage) := [(0, ⟨240⟩), (50, ⟨240⟩), (80, ⟨720⟩), (85, ⟨800⟩)]

/-- Model of `FAN_CURVE` from `control_system/src/controls.rs`:
`(0 °C, 15%), (60, 15%), (85, 100%)` as Q13.3 bits. -/
def FAN_CURVE : List (ℚ × Percentage) := [(0, ⟨120⟩), (60, ⟨120⟩), (85, ⟨800⟩)]

/-- Model of `VALVE_CURVE` from `control_system/src/controls.rs`:
`(0 °C, Open), (59, Open), (60, Closed)`. -/
def VALVE_CURVE : List (ℚ × ValveState) :=
  [(0, ValveState.Open), (59, ValveState.Open), (60, ValveState.Closed)]

/-- Model of `PUMP_SENSITIVITY_K` from `control_system/src/controls.rs`: `0.15`. -/
def PUMP_SENSITIVITY_K : ℚ := 3 / 20

/-- Modelled from the spec: the missing current `ClientSensorData` model of
`controls.rs` (the snapshot ships a stale `u8`-normalised version); field
shapes follow the spec's `ClientSensorSample` and the usage in
`controls.rs`. -/
structure ClientSensorData : Type where
  pump_speed : Rpm
  fan_speed : Rpm
  valve_state : ValveState

/-- Modelled from the spec: the missing `HostSensorData` model —
`(cpu_temperature)`, a host-only Celsius `f32` modelled as `ℚ`. -/
structure HostSensorData : Type where
  cpu_temperature : ℚ

/-- Modelled from the spec: the missing current `ControlEvent` model of
`controls.rs` — the control frame `(fan %, pump %, commanded valve state)`. -/
structure ControlEvent : Type where
  fan_activation : Percentage
  pump_activation : Percentage
  valve_state : ValveState
deriving DecidableEq, Repr

/-- Model of `apply_feedback` from `control_system/src/controls.rs`:
`current + ((target - current) * PUMP_SENSITIVITY_K)`. -/
def apply_feedback (current target : ℚ) : ℚ :=
  current + (target - current) * PUMP_SENSITIVITY_K

/-- Model of `pump_controller` from `control_system/src/controls.rs`: look up the pump
curve (defaulting to 100% on a failed lookup), convert the client pump RPM to
a percentage, apply the proportional feedback, and convert back into a
`Percentage`; if the conversion fails the source clamps the *current* speed
percentage to `[0, 100]` and converts that.  `none` models the panic of the
`.expect` inside `into_percentage`. -/
def pump_controller (temperature : ℚ) (pump_rpm : Rpm) : Option Percentage :=
  let target_activation :=
    match percentLookup PUMP_CURVE temperature with
    | none => Percentage.mk 800
    | some percentage => percentage
  match pump_rpm.into_percentage with
  | none => none
  | some currentPercent =>
    let raw_current_speed_percentage : ℚ := (currentPercent.value : ℚ) / 8
    let raw_target : ℚ := (target_activation.value : ℚ) / 8
    let raw_feedback_target := apply_feedback raw_current_speed_percentage raw_target
    match Percentage.tryFromRat raw_feedback_target with
    | some perc => some perc
    | none => Percentage.tryFromRat (min (max raw_current_speed_percentage 0) 100)

/-- Model of `generate_control_frame` from `control_system/src/controls.rs`: fuse the
most recent client sensor sample and host temperature into a control frame,
using the fan and valve curves (each with a logged default on an impossible
failed lookup: 100% fan, `Open` valve). -/
def generate_control_frame (client : ClientSensorData) (host : HostSensorData) :
    Option ControlEvent :=
  let temperature := host.cpu_temperature
  match pump_controller temperature client.pump_speed with
  | none => none
  | some target_pump_percent =>
    let target_fan_percent :=
      match percentLookup FAN_CURVE temperature with
      | none => Percentage.mk 800
      | some percentage => percentage
    let target_valve_state :=
      match valveLookup VALVE_CURVE temperature with
      | none => ValveState.Open
      | some v => v
    some ⟨target_fan_percent, target_pump_percent, target_valve_state⟩

/-! ## Theorems -/

theorem encodeVarintAux_irrel :
    ∀ f1 : Nat, ∀ f2 n : Nat, n < f1 → n < f2 → encodeVarintAux f1 n = encodeVarintAux f2 n := by
  intro f1
  induction f1 with
  | zero => intro f2 n h1 _; omega
  | succ g ih =>
    intro f2 n h1 h2
    cases f2 with
    | zero => omega
    | succ g2 =>
      simp only [encodeVarintAux]
      by_cases h : n < 128
      · simp [h]
      · simp only [h, if_false]
        have hd : n / 128 < n := Nat.div_lt_self (by omega) (by omega)
        rw [ih g2 (n / 128) (by omega) (by omega)]

/-! ### Round-trip lemmas for the primitive codecs -/
theorem encodeVarint_small {n : Nat} (h : n < 128) : encodeVarint n = [n] := by
  rw [encodeVarint]
  simp [encodeVarintAux, h]

theorem encodeVarint_large {n : Nat} (h : ¬ n < 128) :
    encodeVarint n = (n % 128 + 128) :: encodeVarint (n / 128) := by
  rw [encodeVarint]
  simp only [encodeVarintAux, h, if_false]
  rw [encodeVarintAux_irrel n (n / 128 + 1) (n / 128)
    (Nat.div_lt_self (by omega) (by omega)) (by omega)]
  rfl

theorem encodeVarint_ne_nil (n : Nat) : encodeVarint n ≠ [] := by
  by_cases h : n < 128
  · rw [encodeVarint_small h]; simp
  · rw [encodeVarint_large h]; simp

/-- Key varint round-trip: decoding an encoded value (with any suffix) from an
intermediate loop state returns the accumulated value and the suffix, provided
the value fits in the remaining width.  `w` is the integer width, `maxB` the
byte cap, and the final-byte bound is `2 ^ (w - 7 * (maxB - 1))`. -/
theorem takeVarintAux_encode (maxB w : Nat) (hw : w ≤ 7 * maxB) (hw7 : 7 * (maxB - 1) < w) :
    ∀ n i acc s, i < maxB → n < 2 ^ (w - 7 * i) → acc < 2 ^ (7 * i) →
      takeVarintAux maxB (2 ^ (w - 7 * (maxB - 1))) w i acc (encodeVarint n ++ s) =
        some (acc + n * 2 ^ (7 * i), s) := by
  intro n
  induction n using Nat.strong_induction_on with
  | _ n ih =>
    intro i acc s hi hn hacc
    have h7i : 7 * i < w := by omega
    by_cases h : n < 128
    · rw [encodeVarint_small h]
      show takeVarintAux maxB (2 ^ (w - 7 * (maxB - 1))) w i acc (n :: s) = _
      have hige : ¬ i ≥ maxB := by omega
      have hfit : n * 2 ^ (7 * i) < 2 ^ w := by
        have h1 : n * 2 ^ (7 * i) < 2 ^ (w - 7 * i) * 2 ^ (7 * i) :=
          mul_lt_mul_of_pos_right hn (pow_pos (by norm_num) _)
        have h2 : 2 ^ (w - 7 * i) * 2 ^ (7 * i) = 2 ^ w := by
          rw [← pow_add]
          congr 1
          omega
        omega
      have hcond : ¬ (i = maxB - 1 ∧ 2 ^ (w - 7 * (maxB - 1)) ≤ n) := by
        rintro ⟨h1, h2⟩
        subst h1
        omega
      simp only [takeVarintAux, hige, if_false, h, if_true, hcond,
        Nat.mod_eq_of_lt h, Nat.mod_eq_of_lt hfit]
    · rw [encodeVarint_large h]
      show takeVarintAux maxB (2 ^ (w - 7 * (maxB - 1))) w i acc
        ((n % 128 + 128) :: (encodeVarint (n / 128) ++ s)) = _
      have hige : ¬ i ≥ maxB := by omega
      have hwide : 7 * (i + 1) < w := by
        by_contra hcon
        have : 2 ^ (w - 7 * i) ≤ 2 ^ 7 := Nat.pow_le_pow_right (by omega) (by omega)
        omega
      have hmodsmall : (n % 128 + 128) % 128 = n % 128 := by omega
      have hprod : n % 128 * 2 ^ (7 * i) < 2 ^ w := by
        have h1 : n % 128 * 2 ^ (7 * i) < 128 * 2 ^ (7 * i) :=
          mul_lt_mul_of_pos_right (by omega) (pow_pos (by norm_num) _)
        have h2 : (128 : Nat) * 2 ^ (7 * i) = 2 ^ (7 * i + 7) := by
          rw [pow_add]
          ring
        have h3 : (2 : Nat) ^ (7 * i + 7) ≤ 2 ^ w := Nat.pow_le_pow_right (by omega) (by omega)
        omega
      have hnotlt : ¬ (n % 128 + 128 < 128) := by omega
      simp only [takeVarintAux, hige, if_false, hnotlt, hmodsmall, Nat.mod_eq_of_lt hprod]
      have hi1 : i + 1 < maxB := by
        by_contra hcon
        have hieq : i = maxB - 1 := by omega
        subst hieq
        omega
      have hquot : n / 128 < 2 ^ (w - 7 * (i + 1)) := by
        have h128 : 128 * (n / 128) ≤ n := by
          have := Nat.div_mul_le_self n 128
          omega
        have hexp : 2 ^ (w - 7 * i) = 128 * 2 ^ (w - 7 * (i + 1)) := by
          have heq : (7 : Nat) + (w - 7 * (i + 1)) = w - 7 * i := by omega
          calc (2 : Nat) ^ (w - 7 * i) = 2 ^ (7 + (w - 7 * (i + 1))) := by rw [heq]
            _ = 128 * 2 ^ (w - 7 * (i + 1)) := by rw [pow_add]; norm_num
        omega
      have hacc' : acc + n % 128 * 2 ^ (7 * i) < 2 ^ (7 * (i + 1)) := by
        have hb : n % 128 * 2 ^ (7 * i) ≤ 127 * 2 ^ (7 * i) :=
          Nat.mul_le_mul_right _ (by omega)
        have heq : 2 ^ (7 * (i + 1)) = 128 * 2 ^ (7 * i) := by
          have he7 : 7 * (i + 1) = 7 + 7 * i := by ring
          rw [he7, pow_add]
          norm_num
        omega
      rw [ih (n / 128) (Nat.div_lt_self (by omega) (by omega)) (i + 1)
        (acc + n % 128 * 2 ^ (7 * i)) s hi1 hquot hacc']
      congr 2
      have hpow : 2 ^ (7 * (i + 1)) = 2 ^ (7 * i) * 128 := by
        have he7 : 7 * (i + 1) = 7 * i + 7 := by ring
        rw [he7, pow_add]
        norm_num
      have hsplit : n % 128 + 128 * (n / 128) = n := by omega
      rw [hpow]
      conv_rhs => rw [← hsplit]
      ring

/-- u32 varint round trip with a suffix. -/
theorem takeVarint32_encode {n : Nat} (hn : n < 2 ^ 32) (s : List Nat) :
    takeVarint32 (encodeVarint n ++ s) = some (n, s) := by
  have h := takeVarintAux_encode 5 32 (by norm_num) (by norm_num) n 0 0 s
    (by norm_num) (by simpa using hn) (by norm_num)
  simpa [takeVarint32] using h

/-- u16 varint round trip with a suffix. -/
theorem takeVarint16_encode {n : Nat} (hn : n < 2 ^ 16) (s : List Nat) :
    takeVarint16 (encodeVarint n ++ s) = some (n, s) := by
  have h := takeVarintAux_encode 3 16 (by norm_num) (by norm_num) n 0 0 s
    (by norm_num) (by simpa using hn) (by norm_num)
  simpa [takeVarint16] using h

theorem unzigzag_zigzag {v : Int} (hlo : -2 ^ 15 ≤ v) (_hhi : v < 2 ^ 15) :
    unzigzag (zigzag v) = v := by
  unfold zigzag unzigzag
  by_cases h : 0 ≤ v
  · simp only [h, if_true]
    have h2 : ((2 * v).toNat) % 2 = 0 := by omega
    simp only [h2, if_true]
    omega
  · simp only [h, if_false]
    have h2 : ((-2 * v - 1).toNat) % 2 = 1 := by omega
    simp only [h2]
    norm_num
    omega

theorem zigzag_lt {v : Int} (hlo : -2 ^ 15 ≤ v) (hhi : v < 2 ^ 15) :
    zigzag v < 2 ^ 16 := by
  unfold zigzag
  by_cases h : 0 ≤ v
  · simp only [h, if_true]; omega
  · simp only [h, if_false]; omega

theorem takeBytes_append {l : List Nat} {k : Nat} (h : l.length = k) (s : List Nat) :
    takeBytes k (l ++ s) = some (l, s) := by
  unfold takeBytes
  have hge : ¬ (l ++ s).length < k := by simp [List.length_append]; omega
  simp only [hge, if_false]
  subst h
  rw [List.take_left, List.drop_left]

/-! ### Component round trips -/
theorem takeValve_encode (v : ValveState) (s : List Nat) :
    takeValve (encodeValve v ++ s) = some (v, s) := by
  have hidx : v.idx < 2 ^ 32 := by cases v <;> simp [ValveState.idx]
  unfold takeValve encodeValve
  rw [takeVarint32_encode hidx]
  cases v <;> rfl

theorem takePercentage_encode {p : Percentage} (hp : p.wf) (s : List Nat) :
    takePercentage (encodePercentage p ++ s) = some (p, s) := by
  unfold takePercentage encodePercentage
  rw [takeVarint16_encode (zigzag_lt hp.1 hp.2)]
  simp [unzigzag_zigzag hp.1 hp.2]

theorem takeRpm_encode {r : Rpm} (hr : r.wf) (s : List Nat) :
    takeRpm (encodeRpm r ++ s) = some (r, s) := by
  unfold takeRpm encodeRpm
  simp [List.append_assoc, takeVarint32_encode hr.1, takeVarint32_encode hr.2]

theorem takeStr_encode {l : List Nat} (hlen : l.length ≤ 8) (hascii : ∀ b ∈ l, b < 128)
    (s : List Nat) : takeStr (encodeStr l ++ s) = some (l, s) := by
  unfold takeStr encodeStr
  have hall : l.all (fun b => decide (b < 128)) = true := by
    rw [List.all_eq_true]
    intro b hb
    simpa using hascii b hb
  simp only [List.append_assoc, takeVarint32_encode (show l.length < 2 ^ 32 by omega),
    takeBytes_append rfl, hall, if_true]
  simp [List.take_of_length_le hlen]

/-- One-packet round trip with a suffix: decoding the encoding of a
well-formed packet followed by arbitrary bytes yields exactly that packet and
the suffix. -/
theorem takePacket_encode {p : Packet} (hp : p.wf) (s : List Nat) :
    takePacket (encodePacket p ++ s) = some (p, s) := by
  have h32 : ∀ t : Nat, t < 5 → t < 2 ^ 32 := by intro t ht; omega
  cases p with
  | RequestConnection m =>
    unfold takePacket encodePacket
    simp [List.append_assoc, takeVarint32_encode (h32 0 (by norm_num)),
      takeBytes_append hp.1]
  | AcceptConnection m =>
    unfold takePacket encodePacket
    simp [List.append_assoc, takeVarint32_encode (h32 1 (by norm_num)),
      takeBytes_append hp.1]
  | ReportSensors body =>
    unfold takePacket encodePacket
    simp [List.append_assoc, takeVarint32_encode (h32 2 (by norm_num)),
      takeRpm_encode hp.1, takeRpm_encode hp.2, takeValve_encode]
  | ReportControlTargets body =>
    unfold takePacket encodePacket
    simp [List.append_assoc, takeVarint32_encode (h32 3 (by norm_num)),
      takePercentage_encode hp.1, takePercentage_encode hp.2, takeValve_encode]
  | ReportLogLine l =>
    unfold takePacket encodePacket
    simp [List.append_assoc, takeVarint32_encode (h32 4 (by norm_num)),
      takeStr_encode hp.1 hp.2]

theorem encodePacket_ne_nil (p : Packet) : encodePacket p ≠ [] := by
  cases p <;>
    simp [encodePacket, encodeVarint_ne_nil]

theorem decodePacketsAux_stop {bs : List Nat} (h : takePacket bs = none) (fuel : Nat) :
    decodePacketsAux fuel bs = ([], bs) := by
  cases fuel with
  | zero => rfl
  | succ f => simp [decodePacketsAux, h]

/-- Greedy decoding of a concatenation of well-formed packet encodings followed
by a tail that does not start a valid packet, with any sufficient fuel:
exactly the packet list and the tail come back. -/
theorem decodePacketsAux_concat (ps : List Packet) (r : List Nat)
    (hwf : ∀ p ∈ ps, p.wf) (hr : takePacket r = none) :
    ∀ fuel, (encodePacketList ps ++ r).length ≤ fuel →
      decodePacketsAux fuel (encodePacketList ps ++ r) = (ps, r) := by
  induction ps with
  | nil =>
    intro fuel _
    simpa [encodePacketList] using decodePacketsAux_stop hr fuel
  | cons p ps ih =>
    intro fuel hfuel
    have hplen : 1 ≤ (encodePacket p).length := by
      have := encodePacket_ne_nil p
      cases hEnc : encodePacket p with
      | nil => exact absurd hEnc this
      | cons a l => simp
    have hshape : encodePacketList (p :: ps) ++ r =
        encodePacket p ++ (encodePacketList ps ++ r) := by
      simp [encodePacketList, List.append_assoc]
    cases fuel with
    | zero =>
      exfalso
      rw [hshape] at hfuel
      simp only [List.length_append, Nat.le_zero] at hfuel
      omega
    | succ f =>
      rw [hshape]
      have htake : takePacket (encodePacket p ++ (encodePacketList ps ++ r)) =
          some (p, encodePacketList ps ++ r) := takePacket_encode (hwf p (by simp)) _
      have hflen : (encodePacketList ps ++ r).length ≤ f := by
        rw [hshape] at hfuel
        simp only [List.length_append] at hfuel ⊢
        omega
      simp [decodePacketsAux, htake, ih (fun q hq => hwf q (by simp [hq])) f hflen]

theorem vecPopAllAux_eq_reverse {α : Type} :
    ∀ (fuel : Nat) (l : List α), l.length ≤ fuel → vecPopAllAux fuel l = l.reverse := by
  intro fuel
  induction fuel with
  | zero =>
    intro l hl
    have hnil : l = [] := List.length_eq_zero.mp (by omega)
    subst hnil
    rfl
  | succ f ih =>
    intro l hl
    rcases l.eq_nil_or_concat with rfl | ⟨xs, x, rfl⟩
    · rfl
    · simp only [List.concat_eq_append] at hl ⊢
      rw [vecPopAllAux]
      rw [List.getLast?_concat, List.dropLast_concat]
      rw [ih xs (by simp at hl; omega)]
      simp

theorem vecPopAll_eq_reverse {α : Type} (l : List α) : vecPopAll l = l.reverse :=
  vecPopAllAux_eq_reverse l.length l (le_refl _)

theorem foldl_vecPush_append {α : Type} (cap : Nat) :
    ∀ (new : List α) (q : List α), q.length + new.length ≤ cap →
      new.foldl (vecPush cap) q = q ++ new := by
  intro new
  induction new with
  | nil => intro q _; simp
  | cons a l ih =>
    intro q hlen
    simp only [List.foldl_cons]
    have hq : q.length < cap := by simp at hlen; omega
    rw [vecPush, if_pos hq, ih (q ++ [a]) (by simp at hlen ⊢; omega)]
    simp

/-! ## Claims about the codec and the readers -/
/-- Claim C1: for every byte buffer formed as the concatenation of the
encodings of packets `p1..pn` followed by a trailing byte sequence `r` that
does not start a valid packet, the greedy decoder returns exactly the packet
list `[p1,...,pn]` together with `r` as the unconsumed remainder. -/
theorem C1_greedy_prefix_decode (ps : List Packet) (r : List Nat)
    (hwf : ∀ p ∈ ps, p.wf) (hr : takePacket r = none) :
    decode_packets_from_buffer (encodePacketList ps ++ r) = (ps, r) := by
  unfold decode_packets_from_buffer
  exact decodePacketsAux_concat ps r hwf hr _ (le_refl _)

/-- Witness for C1 at a concrete two-packet buffer with remainder `[255]`
(a lone continuation byte, which no packet encoding starts with). -/
theorem C1_greedy_prefix_decode_witness :
    (∀ p ∈ [Packet.ReportSensors ⟨⟨180000, 90000⟩, ⟨200000, 100000⟩, ValveState.Open⟩,
        Packet.ReportControlTargets ⟨⟨200⟩, ⟨600⟩, ValveState.Closed⟩], Packet.wf p) ∧
    takePacket [255] = none ∧
    decode_packets_from_buffer
      (encodePacketList [Packet.ReportSensors ⟨⟨180000, 90000⟩, ⟨200000, 100000⟩, ValveState.Open⟩,
        Packet.ReportControlTargets ⟨⟨200⟩, ⟨600⟩, ValveState.Closed⟩] ++ [255]) =
      ([Packet.ReportSensors ⟨⟨180000, 90000⟩, ⟨200000, 100000⟩, ValveState.Open⟩,
        Packet.ReportControlTargets ⟨⟨200⟩, ⟨600⟩, ValveState.Closed⟩], [255]) :=
  ⟨by decide, by decide, C1_greedy_prefix_decode _ _ (by decide) (by decide)⟩

/-- Claim C7: serialization is a bit-identical round trip on the wire value
types: every validly constructed `Percentage` decodes from its encoding with
the same Q13.3 bits, and every validly constructed `Rpm` decodes from its
encoding with both fields preserved exactly. -/
theorem C7_wire_value_roundtrip :
    (∀ p : Percentage, p.valid → takePercentage (encodePercentage p) = some (p, [])) ∧
    (∀ r : Rpm, r.valid → takeRpm (encodeRpm r) = some (r, [])) := by
  constructor
  · intro p hp
    have hwf : p.wf := ⟨by have := hp.1; omega, by have := hp.2; omega⟩
    simpa using takePercentage_encode hwf []
  · intro r hr
    simpa using takeRpm_encode hr.1 []

/-- Witness for C7: 57.5% (Q13.3 bits 460) and the 2000.00/1000.55 RPM pair. -/
theorem C7_wire_value_roundtrip_witness :
    takePercentage (encodePercentage ⟨460⟩) = some (⟨460⟩, []) ∧
    takeRpm (encodeRpm ⟨200000, 100055⟩) = some (⟨200000, 100055⟩, []) :=
  ⟨C7_wire_value_roundtrip.1 ⟨460⟩ (by decide),
   C7_wire_value_roundtrip.2 ⟨200000, 100055⟩ (by decide)⟩

/-- Counterexample for C4 as stated: the encoding of a `RequestConnection`
packet split across two reads is delivered by neither read on either node —
the host reader returns no packet and drops the 4 leftover bytes, and the MCU
`decode_bytes` enqueues nothing — although the concatenation of the two chunks
decodes to exactly that packet.  The undecoded remainder is therefore *not*
kept and reparsed with the next read, and the packet is lost. -/
theorem C4_counterexample_split_packet :
    encodePacket (Packet.RequestConnection magicPattern) =
      [0, 97, 98, 50] ++ [100, 119, 97, 115, 107] ∧
    (decode_packets_from_buffer [0, 97, 98, 50]).2 = [0, 97, 98, 50] ∧
    read_packets_from_port [0, 97, 98, 50] = [] ∧
    read_packets_from_port [100, 119, 97, 115, 107] = [] ∧
    decode_bytes [] [0, 97, 98, 50] = [] ∧
    decode_bytes [] [100, 119, 97, 115, 107] = [] ∧
    decode_packets_from_buffer ([0, 97, 98, 50] ++ [100, 119, 97, 115, 107]) =
      ([Packet.RequestConnection magicPattern], []) := by
  decide

/-- Claim C4, amended: a read that ends in the middle of a packet is not
treated as an error — all complete prefix packets are still returned (host)
or enqueued (MCU) — but the undecoded remainder bytes are discarded, not
retained: the next read is parsed independently, so the bytes of a partially
received packet are lost between reads, on both the host session reader and
the MCU USB reader. -/
theorem C4_amended_remainder_dropped (ps : List Packet) (r : List Nat)
    (hwf : ∀ p ∈ ps, p.wf) (hr : takePacket r = none) (hcap : ps.length ≤ 16) :
    read_packets_from_port (encodePacketList ps ++ r) = ps ∧
    decode_bytes [] (encodePacketList ps ++ r) = ps := by
  have hdec : decode_packets_from_buffer (encodePacketList ps ++ r) = (ps, r) := by
    unfold decode_packets_from_buffer
    exact decodePacketsAux_concat ps r hwf hr _ (le_refl _)
  constructor
  · unfold read_packets_from_port
    rw [hdec]
  · unfold decode_bytes
    rw [hdec]
    exact foldl_vecPush_append 16 ps [] (by simpa using hcap)

/-- Witness for the amended C4: one complete log-line packet followed by a
partial tail `[129]`. -/
theorem C4_amended_remainder_dropped_witness :
    read_packets_from_port (encodePacketList [Packet.ReportLogLine [104, 105]] ++ [129]) =
      [Packet.ReportLogLine [104, 105]] ∧
    decode_bytes [] (encodePacketList [Packet.ReportLogLine [104, 105]] ++ [129]) =
      [Packet.ReportLogLine [104, 105]] :=
  C4_amended_remainder_dropped [Packet.ReportLogLine [104, 105]] [129]
    (by decide) (by decide) (by decide)

/-! ## Claims about the MCU application -/
/-- Claim C2 (code bug): feeding `ReportControlTargets(fan=25%, pump=75%)`
with `max_duty = 4096`, target application writes pump duty `75 · 4096 =
307200` and fan duty `25 · 4096 = 102400` — the percent value is multiplied
into the duty without the division by 100 required by the spec, which expects
`round(0.75·4096) = 3072` and `round(0.25·4096) = 1024`.  No valve output is
driven by `process_incoming_packets` at all (the modelled state has no valve
field to drive: the source handles only the two PWM channels). -/
theorem C2_duty_missing_percent_scaling :
    process_incoming_packets ⟨4096, 2048, 2048⟩
      [Packet.ReportControlTargets ⟨⟨200⟩, ⟨600⟩, ValveState.Closed⟩] =
      ⟨4096, 307200, 102400⟩ ∧
    (307200 : Nat) ≠ 3072 ∧ (102400 : Nat) ≠ 1024 := by
  refine ⟨?_, by norm_num, by norm_num⟩
  rw [process_incoming_packets, vecPopAll_eq_reverse]
  show process_one_packet ⟨4096, 2048, 2048⟩
    (Packet.ReportControlTargets ⟨⟨200⟩, ⟨600⟩, ValveState.Closed⟩) = _
  rw [process_one_packet]
  norm_num [dutyFromPercent, f32CastU32]
  constructor <;> rfl

/-- Counterexample for C6 as stated: with both ADC reads succeeding and the
valve sense pin read failing, `report_sensors` aborts with an error and
enqueues nothing — in particular it does not enqueue the `ReportSensors`
packet with `Unknown` valve state that the claim requires (shown for the
packet built from these ADC readings). -/
theorem C6_counterexample_valve_read_failure :
    report_sensors ⟨some 500, some 500, none⟩ [] = none ∧
    report_sensors ⟨some 500, some 500, none⟩ [] ≠
      some [Packet.ReportSensors ⟨⟨180000, 50000⟩, ⟨200000, 50000⟩, ValveState.Unknown⟩] := by
  constructor
  · rfl
  · intro h
    simp [report_sensors] at h

/-- Claim C6, amended: when reading the valve sense pins fails during a
sensor-report cycle, `report_sensors` returns the `ValveReadFailure` error
propagated by `?` and no `ReportSensors` packet is enqueued; `core_loop`
ignores the error, so the cycle is skipped rather than completed with an
`Unknown` valve state. -/
theorem C6_amended_valve_failure_aborts_cycle (inp : SensorInputs)
    (outgoing : List Packet) (hpins : inp.valve_pins = none) :
    report_sensors inp outgoing = none := by
  unfold report_sensors
  rcases hp : inp.pump_norm with _ | pumpRaw
  · rfl
  · rcases hf : inp.fan_norm with _ | fanRaw
    · rfl
    · rw [hpins]

/-- Witness for the amended C6 at the concrete failing cycle. -/
theorem C6_amended_valve_failure_aborts_cycle_witness :
    report_sensors ⟨some 1000, some 900, none⟩ [] = none :=
  C6_amended_valve_failure_aborts_cycle ⟨some 1000, some 900, none⟩ [] rfl

/-- Claim C10: the MCU application's packet queues are last-in-first-out:
`decode_bytes` appends decoded packets at the tail (up to capacity 16), while
`process_incoming_packets` and `write_packets_to_usb` drain with `pop()`, so
packets are processed and transmitted in the reverse of their enqueue order. -/
theorem C10_queues_are_lifo (s : PwmState) (q : List Packet) :
    process_incoming_packets s q = q.reverse.foldl process_one_packet s ∧
    write_packets_to_usb q = (q.reverse.map encodePacket).flatten ∧
    ∀ (incoming : List Packet) (buffer : List Nat),
      incoming.length + (decode_packets_from_buffer buffer).1.length ≤ 16 →
      decode_bytes incoming buffer = incoming ++ (decode_packets_from_buffer buffer).1 := by
  refine ⟨?_, ?_, ?_⟩
  · rw [process_incoming_packets, vecPopAll_eq_reverse]
  · rw [write_packets_to_usb, vecPopAll_eq_reverse]
  · intro incoming buffer hcap
    unfold decode_bytes
    exact foldl_vecPush_append 16 _ incoming hcap

/-- Witness for C10: with two queued control packets the tail packet (queued
last, 20%) is popped and applied first, so the head packet (queued first, 10%)
is applied last and its duties win; the transmission order is likewise
reversed, and `decode_bytes` appends at the tail behind an already queued
packet. -/
theorem C10_queues_are_lifo_witness :
    process_incoming_packets ⟨4096, 0, 0⟩
      [Packet.ReportControlTargets ⟨⟨80⟩, ⟨80⟩, ValveState.Open⟩,
       Packet.ReportControlTargets ⟨⟨160⟩, ⟨160⟩, ValveState.Open⟩] = ⟨4096, 40960, 40960⟩ ∧
    write_packets_to_usb
      [Packet.RequestConnection magicPattern, Packet.AcceptConnection magicPattern] =
      encodePacket (Packet.AcceptConnection magicPattern) ++
        encodePacket (Packet.RequestConnection magicPattern) ∧
    decode_bytes [Packet.RequestConnection magicPattern]
      (encodePacket (Packet.ReportLogLine [104, 105])) =
      [Packet.RequestConnection magicPattern, Packet.ReportLogLine [104, 105]] := by
  obtain ⟨h1, h2, h3⟩ := C10_queues_are_lifo (PwmState.mk 4096 0 0)
    [Packet.ReportControlTargets ⟨⟨80⟩, ⟨80⟩, ValveState.Open⟩,
     Packet.ReportControlTargets ⟨⟨160⟩, ⟨160⟩, ValveState.Open⟩]
  refine ⟨?_, ?_, ?_⟩
  · rw [h1]
    show process_one_packet (process_one_packet _
      (Packet.ReportControlTargets ⟨⟨160⟩, ⟨160⟩, ValveState.Open⟩))
      (Packet.ReportControlTargets ⟨⟨80⟩, ⟨80⟩, ValveState.Open⟩) = _
    rw [process_one_packet, process_one_packet]
    norm_num [dutyFromPercent, f32CastU32]
    rfl
  · rw [(C10_queues_are_lifo ⟨4096, 0, 0⟩
      [Packet.RequestConnection magicPattern, Packet.AcceptConnection magicPattern]).2.1]
    decide
  · rw [(C10_queues_are_lifo ⟨4096, 0, 0⟩ []).2.2 [Packet.RequestConnection magicPattern]
      (encodePacket (Packet.ReportLogLine [104, 105])) (by decide)]
    decide

theorem roundRatLeRound {a b : ℚ} (h : a ≤ b) : round a ≤ round b := by
  rw [round_eq, round_eq]
  exact Int.floor_mono (by linarith)

/-- Counterexample for C9 as stated: `Rpm::new(0, 0)` is accepted by the
constructor, but `into_percentage` on that value divides `0 / 0` (`NaN` in the
source's `f32` arithmetic) and panics inside `Percentage` construction instead
of returning a valid percentage. -/
theorem C9_counterexample_zero_max :
    Rpm.new 0 0 = some ⟨0, 0⟩ ∧ Rpm.into_percentage ⟨0, 0⟩ = none := by
  constructor
  · rw [Rpm.new]
    norm_num [to_rpm_speed]
  · rw [Rpm.into_percentage]
    norm_num

/-- Claim C9, amended: for every `Rpm` accepted by the constructor whose
maximum is nonzero, `into_percentage` returns the `Percentage` representing
`current/max · 100` (its Q13.3 quantisation), and that result is a valid
percentage in `[0, 100]`; for `max = 0` — which the constructor also
accepts — `into_percentage` fails instead (0/0 is NaN). -/
theorem C9_amended_into_percentage (r : Rpm) (hmax : 0 < r.max_speed_raw)
    (hle : r.speed_raw ≤ r.max_speed_raw) :
    Rpm.into_percentage r =
      some ⟨round ((r.speed_raw : ℚ) / (r.max_speed_raw : ℚ) * 100 * 8)⟩ ∧
    ∀ p : Percentage, Rpm.into_percentage r = some p → p.valid := by
  have hratio0 : (0 : ℚ) ≤ (r.speed_raw : ℚ) / (r.max_speed_raw : ℚ) := by
    positivity
  have hratio1 : (r.speed_raw : ℚ) / (r.max_speed_raw : ℚ) ≤ 1 := by
    rw [div_le_one (by positivity)]
    exact_mod_cast hle
  have hmain : Rpm.into_percentage r =
      some ⟨round ((r.speed_raw : ℚ) / (r.max_speed_raw : ℚ) * 100 * 8)⟩ := by
    rw [Rpm.into_percentage, if_neg (by omega), Percentage.tryFromRat,
      if_neg (by push_neg; constructor <;> nlinarith)]
  refine ⟨hmain, ?_⟩
  intro p hp
  rw [hmain] at hp
  have hpv : p.value = round ((r.speed_raw : ℚ) / (r.max_speed_raw : ℚ) * 100 * 8) := by
    cases hp
    rfl
  constructor
  · rw [hpv]
    have h0 : round (0 : ℚ) ≤ round ((r.speed_raw : ℚ) / (r.max_speed_raw : ℚ) * 100 * 8) :=
      roundRatLeRound (by nlinarith)
    simpa using h0
  · rw [hpv]
    have h8 : round ((r.speed_raw : ℚ) / (r.max_speed_raw : ℚ) * 100 * 8) ≤ round (800 : ℚ) :=
      roundRatLeRound (by nlinarith)
    simpa using h8

/-- Witness for the amended C9 at 1000.00 of 2000.00 RPM: exactly 50%. -/
theorem C9_amended_into_percentage_witness :
    Rpm.into_percentage ⟨200000, 100000⟩ = some ⟨400⟩ ∧ Percentage.valid ⟨400⟩ := by
  have h := C9_amended_into_percentage ⟨200000, 100000⟩ (by norm_num) (by norm_num)
  constructor
  · rw [h.1]
    norm_num
  · decide

/-! ## Ordered-curve facts -/
theorem foldl_minByStep_keep {Y : Type} :
    ∀ (t : List (ℚ × Y)) (a : ℚ × Y), (∀ q ∈ t, ¬ q.1 < a.1) →
      t.foldl minByStep (some a) = some a := by
  intro t
  induction t with
  | nil => intro a _; rfl
  | cons b t ih =>
    intro a h
    have hb : ¬ b.1 < a.1 := h b (by simp)
    simp only [List.foldl_cons, minByStep, hb, if_false]
    exact ih a (fun q hq => h q (by simp [hq]))

theorem minByX_sorted {Y : Type} (points : List (ℚ × Y)) (hne : points ≠ [])
    (hs : points.Pairwise (fun a b => a.1 < b.1)) :
    minByX points = some (points.head hne) := by
  cases points with
  | nil => exact absurd rfl hne
  | cons a t =>
    show (a :: t).foldl minByStep none = some a
    rw [List.foldl_cons]
    exact foldl_minByStep_keep t a
      (fun q hq => not_lt_of_lt ((List.pairwise_cons.mp hs).1 q hq))

theorem foldl_maxByStep_last {Y : Type} :
    ∀ (t : List (ℚ × Y)) (a : ℚ × Y), (a :: t).Pairwise (fun p q => p.1 < q.1) →
      t.foldl maxByStep (some a) = some ((a :: t).getLast (by simp)) := by
  intro t
  induction t with
  | nil => intro a _; rfl
  | cons b t ih =>
    intro a h
    have hab : a.1 < b.1 := (List.pairwise_cons.mp h).1 b (by simp)
    simp only [List.foldl_cons, maxByStep]
    rw [if_neg (not_lt_of_lt hab)]
    rw [ih b (List.pairwise_cons.mp h).2]
    exact congrArg some (List.getLast_cons (by simp)).symm

theorem maxByX_sorted {Y : Type} (points : List (ℚ × Y)) (hne : points ≠ [])
    (hs : points.Pairwise (fun a b => a.1 < b.1)) :
    maxByX points = some (points.getLast hne) := by
  cases points with
  | nil => exact absurd rfl hne
  | cons a t =>
    show (a :: t).foldl maxByStep none = some ((a :: t).getLast (by simp))
    rw [List.foldl_cons]
    exact foldl_maxByStep_last t a hs

theorem sorted_head_le {Y : Type} (points : List (ℚ × Y)) (hne : points ≠ [])
    (hs : points.Pairwise (fun a b => a.1 < b.1)) :
    ∀ p ∈ points, (points.head hne).1 ≤ p.1 := by
  cases points with
  | nil => exact absurd rfl hne
  | cons a t =>
    intro p hp
    rcases List.mem_cons.mp hp with rfl | hp
    · rfl
    · exact le_of_lt ((List.pairwise_cons.mp hs).1 p hp)

theorem sorted_le_getLast {Y : Type} :
    ∀ (points : List (ℚ × Y)) (hne : points ≠ []),
      points.Pairwise (fun a b => a.1 < b.1) →
      ∀ p ∈ points, p.1 ≤ (points.getLast hne).1 := by
  intro points
  induction points with
  | nil => intro hne; exact absurd rfl hne
  | cons a t ih =>
    intro _ hs p hp
    cases t with
    | nil =>
      rcases List.mem_cons.mp hp with rfl | hp
      · rfl
      · simp at hp
    | cons b t2 =>
      rw [List.getLast_cons (by simp)]
      rcases List.mem_cons.mp hp with rfl | hp
      · have hmem : (b :: t2).getLast (by simp) ∈ b :: t2 := List.getLast_mem _
        exact le_of_lt ((List.pairwise_cons.mp hs).1 _ hmem)
      · exact ih (by simp) (List.pairwise_cons.mp hs).2 p hp

set_option maxHeartbeats 1600000 in
/-- Structure of a sorted-curve lookup: it always succeeds, the result is
either the `y` of a control point (both clamping ends and exact hits) or the
interpolation between two bracketing control points, and below (above) the
smallest (largest) control `x` it is exactly the first (last) point's `y`. -/
theorem curveLookup_sorted_spec {Y : Type} (add sub : Y → Y → Y) (scale : Y → ℚ → Y)
    (points : List (ℚ × Y)) (x : ℚ) (hne : points ≠ [])
    (hs : points.Pairwise (fun a b => a.1 < b.1)) :
    ∃ y, curveLookup add sub scale points x = some y ∧
      ((∃ p ∈ points, y = p.2) ∨
        (∃ p1 ∈ points, ∃ p2 ∈ points, p1.1 ≤ x ∧ x ≤ p2.1 ∧ p1.1 < p2.1 ∧
          y = add p1.2 (scale (sub p2.2 p1.2) ((x - p1.1) / (p2.1 - p1.1))))) ∧
      (x < (points.head hne).1 → y = (points.head hne).2) ∧
      ((points.getLast hne).1 < x → y = (points.getLast hne).2) := by
  have hsortLe : List.Sorted (fun a b : ℚ × Y => a.1 ≤ b.1) points :=
    hs.imp (fun hab => le_of_lt hab)
  by_cases hbelow : ∀ p ∈ points, x < p.1
  · have hfB : points.filter (fun p => p.1 ≤ x) = [] :=
      List.filter_eq_nil_iff.mpr
        (by intro p hp; simpa using not_le_of_lt (hbelow p hp))
    have hfA : points.filter (fun p => x ≤ p.1) = points :=
      List.filter_eq_self.mpr (by intro p hp; simpa using le_of_lt (hbelow p hp))
    have hlast : find_last_point_before_x points x = some (points.head hne) := by
      unfold find_last_point_before_x
      rw [hfB]
      simpa using minByX_sorted points hne hs
    have hfirst : find_first_point_after_x points x = some (points.head hne) := by
      unfold find_first_point_after_x
      rw [hfA, List.Sorted.insertionSort_eq hsortLe, List.head?_eq_head hne]
    refine ⟨(points.head hne).2, ?_, ?_, ?_, ?_⟩
    · unfold curveLookup
      rw [hlast, hfirst]
      simp
    · exact Or.inl ⟨points.head hne, List.head_mem hne, rfl⟩
    · intro _; rfl
    · intro hcon
      have hx := hbelow _ (List.getLast_mem hne)
      exact absurd hx (by linarith)
  · by_cases habove : ∀ p ∈ points, p.1 < x
    · have hfB : points.filter (fun p => p.1 ≤ x) = points :=
        List.filter_eq_self.mpr (by intro p hp; simpa using le_of_lt (habove p hp))
      have hfA : points.filter (fun p => x ≤ p.1) = [] :=
        List.filter_eq_nil_iff.mpr
          (by intro p hp; simpa using not_le_of_lt (habove p hp))
      have hlast : find_last_point_before_x points x = some (points.getLast hne) := by
        unfold find_last_point_before_x
        rw [hfB, List.Sorted.insertionSort_eq hsortLe, List.getLast?_eq_getLast _ hne]
      have hfirst : find_first_point_after_x points x = some (points.getLast hne) := by
        unfold find_first_point_after_x
        rw [hfA]
        simpa using maxByX_sorted points hne hs
      refine ⟨(points.getLast hne).2, ?_, ?_, ?_, ?_⟩
      · unfold curveLookup
        rw [hlast, hfirst]
        simp
      · exact Or.inl ⟨points.getLast hne, List.getLast_mem hne, rfl⟩
      · intro hcon
        have hx := habove _ (List.head_mem hne)
        exact absurd hx (by linarith)
      · intro _; rfl
    · push_neg at hbelow
      push_neg at habove
      obtain ⟨pb, hpbmem, hpble⟩ := hbelow
      obtain ⟨pa, hpamem, hpage⟩ := habove
      have hfBne : points.filter (fun p => p.1 ≤ x) ≠ [] := by
        intro hcon
        have hno := List.filter_eq_nil_iff.mp hcon pb hpbmem
        simp at hno
        linarith
      have hfAne : points.filter (fun p => x ≤ p.1) ≠ [] := by
        intro hcon
        have hno := List.filter_eq_nil_iff.mp hcon pa hpamem
        simp at hno
        linarith
      have hsortB : List.Sorted (fun a b : ℚ × Y => a.1 ≤ b.1)
          (points.filter (fun p => p.1 ≤ x)) := hsortLe.filter _
      have hsortA : List.Sorted (fun a b : ℚ × Y => a.1 ≤ b.1)
          (points.filter (fun p => x ≤ p.1)) := hsortLe.filter _
      have hlast : find_last_point_before_x points x =
          some ((points.filter (fun p => p.1 ≤ x)).getLast hfBne) := by
        unfold find_last_point_before_x
        rw [List.Sorted.insertionSort_eq hsortB, List.getLast?_eq_getLast _ hfBne]
      have hfirst : find_first_point_after_x points x =
          some ((points.filter (fun p => x ≤ p.1)).head hfAne) := by
        unfold find_first_point_after_x
        rw [List.Sorted.insertionSort_eq hsortA, List.head?_eq_head hfAne]
      have hq1f := List.mem_filter.mp (List.getLast_mem hfBne)
      have hq2f := List.mem_filter.mp (List.head_mem hfAne)
      have hq1le : ((points.filter (fun p => p.1 ≤ x)).getLast hfBne).1 ≤ x := by
        have := hq1f.2
        simpa using this
      have hq2ge : x ≤ ((points.filter (fun p => x ≤ p.1)).head hfAne).1 := by
        have := hq2f.2
        simpa using this
      have hheadle := sorted_head_le points hne hs _ hq1f.1
      have hgetlastge := sorted_le_getLast points hne hs _ hq2f.1
      by_cases heqx : ((points.filter (fun p => p.1 ≤ x)).getLast hfBne).1 =
          ((points.filter (fun p => x ≤ p.1)).head hfAne).1
      · refine ⟨((points.filter (fun p => p.1 ≤ x)).getLast hfBne).2, ?_, ?_, ?_, ?_⟩
        · unfold curveLookup
          rw [hlast, hfirst]
          dsimp only
          rw [if_pos heqx]
        · exact Or.inl ⟨_, hq1f.1, rfl⟩
        · intro hcon
          exact absurd hheadle (by linarith)
        · intro hcon
          exact absurd hgetlastge (by linarith)
      · refine ⟨add ((points.filter (fun p => p.1 ≤ x)).getLast hfBne).2
          (scale (sub ((points.filter (fun p => x ≤ p.1)).head hfAne).2
              ((points.filter (fun p => p.1 ≤ x)).getLast hfBne).2)
            ((x - ((points.filter (fun p => p.1 ≤ x)).getLast hfBne).1) /
              (((points.filter (fun p => x ≤ p.1)).head hfAne).1 -
                ((points.filter (fun p => p.1 ≤ x)).getLast hfBne).1))), ?_, ?_, ?_, ?_⟩
        · unfold curveLookup
          rw [hlast, hfirst]
          dsimp only
          rw [if_neg heqx]
        · exact Or.inr ⟨_, hq1f.1, _, hq2f.1, hq1le, hq2ge,
            lt_of_le_of_ne (le_trans hq1le hq2ge) heqx, rfl⟩
        · intro hcon
          exact absurd hheadle (by linarith)
        · intro hcon
          exact absurd hgetlastge (by linarith)

theorem foldl_min_le_init (l : List ℚ) : ∀ init : ℚ, l.foldl min init ≤ init := by
  induction l with
  | nil => intro init; exact le_refl _
  | cons b t ih =>
    intro init
    calc (b :: t).foldl min init = t.foldl min (min init b) := by rw [List.foldl_cons]
      _ ≤ min init b := ih _
      _ ≤ init := min_le_left _ _

theorem foldl_min_le_mem (l : List ℚ) : ∀ init a, a ∈ l → l.foldl min init ≤ a := by
  induction l with
  | nil => intro _ a ha; simp at ha
  | cons b t ih =>
    intro init a ha
    rcases List.mem_cons.mp ha with rfl | ha
    · calc (a :: t).foldl min init = t.foldl min (min init a) := by rw [List.foldl_cons]
        _ ≤ min init a := foldl_min_le_init t _
        _ ≤ a := min_le_right _ _
    · rw [List.foldl_cons]
      exact ih _ a ha

theorem listMinD_le {l : List ℚ} {a : ℚ} (h : a ∈ l) : listMinD l ≤ a := by
  cases l with
  | nil => simp at h
  | cons b t =>
    rcases List.mem_cons.mp h with rfl | h
    · exact foldl_min_le_init t a
    · exact foldl_min_le_mem t b a h

theorem foldl_max_init_le (l : List ℚ) : ∀ init : ℚ, init ≤ l.foldl max init := by
  induction l with
  | nil => intro init; exact le_refl _
  | cons b t ih =>
    intro init
    calc init ≤ max init b := le_max_left _ _
      _ ≤ t.foldl max (max init b) := ih _
      _ = (b :: t).foldl max init := by rw [List.foldl_cons]

theorem foldl_max_mem_le (l : List ℚ) : ∀ init a, a ∈ l → a ≤ l.foldl max init := by
  induction l with
  | nil => intro _ a ha; simp at ha
  | cons b t ih =>
    intro init a ha
    rcases List.mem_cons.mp ha with rfl | ha
    · calc a ≤ max init a := le_max_right _ _
        _ ≤ t.foldl max (max init a) := foldl_max_init_le t _
        _ = (a :: t).foldl max init := by rw [List.foldl_cons]
    · rw [List.foldl_cons]
      exact ih _ a ha

theorem le_listMaxD {l : List ℚ} {a : ℚ} (h : a ∈ l) : a ≤ listMaxD l := by
  cases l with
  | nil => simp at h
  | cons b t =>
    rcases List.mem_cons.mp h with rfl | h
    · exact foldl_max_init_le t a
    · exact foldl_max_mem_le t b a h

/-- Claim C8: for every non-empty curve (ordered control points, per
`Curve::new` and the spec's curve definition) and every input `x`, lookup
returns a `y` between the curve's minimum and maximum `y` values; below the
smallest control `x` it equals the minimum point's `y`, above the largest it
equals the maximum point's `y`. -/
theorem C8_lookup_bounds_and_clamping (points : List (ℚ × ℚ)) (x : ℚ)
    (hne : points ≠ []) (hs : points.Pairwise (fun a b => a.1 < b.1)) :
    ∃ y, lookupQ points x = some y ∧
      listMinD (points.map Prod.snd) ≤ y ∧ y ≤ listMaxD (points.map Prod.snd) ∧
      (x < (points.head hne).1 → y = (points.head hne).2) ∧
      ((points.getLast hne).1 < x → y = (points.getLast hne).2) := by
  obtain ⟨y, hy, hcases, hbel, habv⟩ := curveLookup_sorted_spec
    (fun a b => a + b) (fun a b => a - b) (fun a t => a * t) points x hne hs
  refine ⟨y, hy, ?_, ?_, hbel, habv⟩
  · rcases hcases with ⟨p, hp, rfl⟩ | ⟨p1, hp1, p2, hp2, hle1, hle2, hlt, rfl⟩
    · exact listMinD_le (List.mem_map_of_mem Prod.snd hp)
    · have hm1 : listMinD (points.map Prod.snd) ≤ p1.2 :=
        listMinD_le (List.mem_map_of_mem Prod.snd hp1)
      have hm2 : listMinD (points.map Prod.snd) ≤ p2.2 :=
        listMinD_le (List.mem_map_of_mem Prod.snd hp2)
      have ht0 : 0 ≤ (x - p1.1) / (p2.1 - p1.1) := div_nonneg (by linarith) (by linarith)
      have ht1 : (x - p1.1) / (p2.1 - p1.1) ≤ 1 := by
        rw [div_le_one (by linarith)]
        linarith
      nlinarith
  · rcases hcases with ⟨p, hp, rfl⟩ | ⟨p1, hp1, p2, hp2, hle1, hle2, hlt, rfl⟩
    · exact le_listMaxD (List.mem_map_of_mem Prod.snd hp)
    · have hm1 : p1.2 ≤ listMaxD (points.map Prod.snd) :=
        le_listMaxD (List.mem_map_of_mem Prod.snd hp1)
      have hm2 : p2.2 ≤ listMaxD (points.map Prod.snd) :=
        le_listMaxD (List.mem_map_of_mem Prod.snd hp2)
      have ht0 : 0 ≤ (x - p1.1) / (p2.1 - p1.1) := div_nonneg (by linarith) (by linarith)
      have ht1 : (x - p1.1) / (p2.1 - p1.1) ≤ 1 := by
        rw [div_le_one (by linarith)]
        linarith
      nlinarith

/-- Witness for C8 on the rational fan curve shape at 70 °C: the lookup
succeeds inside the min/max bounds, and evaluates to 49 (linear between
`(60, 15)` and `(85, 100)`). -/
theorem C8_lookup_bounds_and_clamping_witness :
    (∃ y, lookupQ [(0, 15), (60, 15), (85, 100)] 70 = some y ∧
      listMinD ([(0, 15), (60, 15), (85, 100)].map Prod.snd) ≤ y ∧
      y ≤ listMaxD ([((0 : ℚ), (15 : ℚ)), (60, 15), (85, 100)].map Prod.snd)) ∧
    lookupQ [(0, 15), (60, 15), (85, 100)] 70 = some 49 := by
  constructor
  · obtain ⟨y, hy, hmin, hmax, _, _⟩ := C8_lookup_bounds_and_clamping
      [(0, 15), (60, 15), (85, 100)] 70 (by simp)
      (by norm_num [List.pairwise_cons])
    exact ⟨y, hy, hmin, hmax⟩
  · norm_num [lookupQ, curveLookup, find_last_point_before_x, find_first_point_after_x,
      List.insertionSort, List.orderedInsert, minByX, maxByX, minByStep, maxByStep]

theorem tryFromRat_valid {q : ℚ} {p : Percentage} (h : Percentage.tryFromRat q = some p) :
    p.value = round (q * 8) ∧ 0 ≤ p.value ∧ p.value ≤ 800 := by
  unfold Percentage.tryFromRat at h
  by_cases hc : q < 0 ∨ 100 < q
  · rw [if_pos hc] at h
    exact absurd h (by simp)
  · rw [if_neg hc] at h
    push_neg at hc
    have hpv : p.value = round (q * 8) := by
      cases h
      rfl
    refine ⟨hpv, ?_, ?_⟩
    · rw [hpv]
      have h0 : round (0 : ℚ) ≤ round (q * 8) := roundRatLeRound (by nlinarith [hc.1])
      simpa using h0
    · rw [hpv]
      have h8 : round (q * 8) ≤ round (800 : ℚ) := roundRatLeRound (by nlinarith [hc.2])
      simpa using h8

theorem percentLookup_bounds {points : List (ℚ × Percentage)} {x : ℚ} {tgt : Percentage}
    (hne : points ≠ []) (hs : points.Pairwise (fun a b => a.1 < b.1))
    (hbound : ∀ p ∈ points, 0 ≤ p.2.value ∧ p.2.value ≤ 800)
    (h : percentLookup points x = some tgt) : 0 ≤ tgt.value ∧ tgt.value ≤ 800 := by
  obtain ⟨y, hy, hcases, _, _⟩ := curveLookup_sorted_spec
    Percentage.addP Percentage.subP Percentage.scaleP points x hne hs
  unfold percentLookup at h
  rw [hy] at h
  have hyt : y = tgt := by
    cases h
    rfl
  subst hyt
  rcases hcases with ⟨p, hp, rfl⟩ | ⟨p1, hp1, p2, hp2, hle1, hle2, hlt, rfl⟩
  · exact hbound p hp
  · have hb1 := hbound p1 hp1
    have hb2 := hbound p2 hp2
    have ht0 : 0 ≤ (x - p1.1) / (p2.1 - p1.1) := div_nonneg (by linarith) (by linarith)
    have ht1 : (x - p1.1) / (p2.1 - p1.1) ≤ 1 := by
      rw [div_le_one (by linarith)]
      linarith
    show 0 ≤ p1.2.value + round (((p2.2.value - p1.2.value : Int) : ℚ) *
        ((x - p1.1) / (p2.1 - p1.1))) ∧
      p1.2.value + round (((p2.2.value - p1.2.value : Int) : ℚ) *
        ((x - p1.1) / (p2.1 - p1.1))) ≤ 800
    have hlo : (min 0 (p2.2.value - p1.2.value) : Int) ≤
        round (((p2.2.value - p1.2.value : Int) : ℚ) * ((x - p1.1) / (p2.1 - p1.1))) := by
      have hcast : ((min 0 (p2.2.value - p1.2.value) : Int) : ℚ) ≤
          ((p2.2.value - p1.2.value : Int) : ℚ) * ((x - p1.1) / (p2.1 - p1.1)) := by
        rcases le_or_lt 0 (p2.2.value - p1.2.value) with hd | hd
        · rw [min_eq_left (by exact_mod_cast hd)]
          push_cast
          have : (0 : ℚ) ≤ ((p2.2.value : ℚ) - (p1.2.value : ℚ)) := by exact_mod_cast hd
          nlinarith
        · rw [min_eq_right (by omega)]
          push_cast
          have : ((p2.2.value : ℚ) - (p1.2.value : ℚ)) < 0 := by exact_mod_cast hd
          nlinarith
      calc (min 0 (p2.2.value - p1.2.value) : Int) =
            round (((min 0 (p2.2.value - p1.2.value) : Int) : ℚ)) := (round_intCast _).symm
        _ ≤ _ := roundRatLeRound hcast
    have hhi : round (((p2.2.value - p1.2.value : Int) : ℚ) * ((x - p1.1) / (p2.1 - p1.1))) ≤
        (max 0 (p2.2.value - p1.2.value) : Int) := by
      have hcast : ((p2.2.value - p1.2.value : Int) : ℚ) * ((x - p1.1) / (p2.1 - p1.1)) ≤
          ((max 0 (p2.2.value - p1.2.value) : Int) : ℚ) := by
        rcases le_or_lt 0 (p2.2.value - p1.2.value) with hd | hd
        · rw [max_eq_right (by exact_mod_cast hd)]
          push_cast
          have : (0 : ℚ) ≤ ((p2.2.value : ℚ) - (p1.2.value : ℚ)) := by exact_mod_cast hd
          nlinarith
        · rw [max_eq_left (by omega)]
          push_cast
          have : ((p2.2.value : ℚ) - (p1.2.value : ℚ)) < 0 := by exact_mod_cast hd
          nlinarith
      calc round (((p2.2.value - p1.2.value : Int) : ℚ) * ((x - p1.1) / (p2.1 - p1.1))) ≤
            round (((max 0 (p2.2.value - p1.2.value) : Int) : ℚ)) := roundRatLeRound hcast
        _ = (max 0 (p2.2.value - p1.2.value) : Int) := round_intCast _
    omega

/-- Claim C3: for every host temperature and client pump RPM sample, the pump
controller's output is the `Percentage` conversion of
`current% + (target% − current%) · 0.15` clamped to `[0, 100]`, where
`current%` is the client pump RPM converted to a percentage and `target%` the
pump-curve lookup at the temperature (the clamp is the identity here because
the feedback value is a convex combination of two in-range percentages). -/
theorem C3_pump_feedback (T : ℚ) (r : Rpm) (cur tgt : Percentage)
    (hcur : r.into_percentage = some cur)
    (htgt : percentLookup PUMP_CURVE T = some tgt) :
    pump_controller T r =
      Percentage.tryFromRat (min (max ((cur.value : ℚ) / 8 +
        ((tgt.value : ℚ) / 8 - (cur.value : ℚ) / 8) * (3 / 20)) 0) 100) := by
  have hcurb : 0 ≤ cur.value ∧ cur.value ≤ 800 := by
    unfold Rpm.into_percentage at hcur
    by_cases hm : r.max_speed_raw = 0
    · rw [if_pos hm] at hcur
      exact absurd hcur (by simp)
    · rw [if_neg hm] at hcur
      have hv := tryFromRat_valid hcur
      exact ⟨hv.2.1, hv.2.2⟩
  have htgtb : 0 ≤ tgt.value ∧ tgt.value ≤ 800 := by
    refine percentLookup_bounds (by simp [PUMP_CURVE]) ?_ ?_ htgt
    · norm_num [PUMP_CURVE, List.pairwise_cons]
    · intro p hp
      simp only [PUMP_CURVE, List.mem_cons, List.not_mem_nil, or_false] at hp
      rcases hp with rfl | rfl | rfl | rfl <;> norm_num
  have hc0 : (0 : ℚ) ≤ (cur.value : ℚ) := by exact_mod_cast hcurb.1
  have hc8 : (cur.value : ℚ) ≤ 800 := by exact_mod_cast hcurb.2
  have ht0 : (0 : ℚ) ≤ (tgt.value : ℚ) := by exact_mod_cast htgtb.1
  have ht8 : (tgt.value : ℚ) ≤ 800 := by exact_mod_cast htgtb.2
  have hfb0 : 0 ≤ (cur.value : ℚ) / 8 + ((tgt.value : ℚ) / 8 - (cur.value : ℚ) / 8) * (3 / 20) := by
    nlinarith
  have hfb100 : (cur.value : ℚ) / 8 + ((tgt.value : ℚ) / 8 - (cur.value : ℚ) / 8) * (3 / 20) ≤ 100 := by
    nlinarith
  have hclamp : min (max ((cur.value : ℚ) / 8 +
      ((tgt.value : ℚ) / 8 - (cur.value : ℚ) / 8) * (3 / 20)) 0) 100 =
      (cur.value : ℚ) / 8 + ((tgt.value : ℚ) / 8 - (cur.value : ℚ) / 8) * (3 / 20) := by
    rw [max_eq_left hfb0, min_eq_left hfb100]
  rw [hclamp]
  unfold pump_controller
  rw [htgt, hcur]
  show (match Percentage.tryFromRat (apply_feedback ((cur.value : ℚ) / 8)
      ((tgt.value : ℚ) / 8)) with
    | some perc => some perc
    | none => Percentage.tryFromRat (min (max ((cur.value : ℚ) / 8) 0) 100)) = _
  have hfeq : apply_feedback ((cur.value : ℚ) / 8) ((tgt.value : ℚ) / 8) =
      (cur.value : ℚ) / 8 + ((tgt.value : ℚ) / 8 - (cur.value : ℚ) / 8) * (3 / 20) := by
    unfold apply_feedback PUMP_SENSITIVITY_K
    ring
  rw [hfeq]
  have hsome : Percentage.tryFromRat ((cur.value : ℚ) / 8 +
      ((tgt.value : ℚ) / 8 - (cur.value : ℚ) / 8) * (3 / 20)) =
      some ⟨round (((cur.value : ℚ) / 8 +
        ((tgt.value : ℚ) / 8 - (cur.value : ℚ) / 8) * (3 / 20)) * 8)⟩ := by
    unfold Percentage.tryFromRat
    rw [if_neg (by push_neg; exact ⟨hfb0, hfb100⟩)]
  rw [hsome]

/-- Witness for C3 at the spec's seed scenario 5: T = 85 °C with the pump at
50% (1000 of 2000 RPM) yields `50% + (100% − 50%)·0.15 = 57.5%`
(Q13.3 bits 460). -/
theorem C3_pump_feedback_witness :
    pump_controller 85 ⟨200000, 100000⟩ = some ⟨460⟩ := by
  have hcur : Rpm.into_percentage ⟨200000, 100000⟩ = some ⟨400⟩ := by
    norm_num [Rpm.into_percentage, Percentage.tryFromRat]
  have htgt : percentLookup PUMP_CURVE 85 = some ⟨800⟩ := by
    norm_num [percentLookup, PUMP_CURVE, curveLookup, find_last_point_before_x,
      find_first_point_after_x, List.insertionSort, List.orderedInsert, minByX, maxByX,
      minByStep, maxByStep]
  rw [C3_pump_feedback 85 ⟨200000, 100000⟩ ⟨400⟩ ⟨800⟩ hcur htgt]
  norm_num [Percentage.tryFromRat]

/-- Evaluation of the control fuser at T = 59 °C with the client pump
reporting 30% (600 of 2000 RPM): `FAN_CURVE` is still on its flat 15%
segment, `VALVE_CURVE`'s last point at or below 59 is `Open`, and the pump
output is `30% + (48% − 30%)·0.15 = 32.7%`, quantised to 32.75% (Q13.3 bits
262), where 48% is the pump-curve interpolation at 59 °C. -/
theorem generate_control_frame_at_59 :
    generate_control_frame ⟨⟨200000, 60000⟩, ⟨180000, 60000⟩, ValveState.Open⟩ ⟨59⟩ =
      some ⟨⟨120⟩, ⟨262⟩, ValveState.Open⟩ := by
  have hcur : Rpm.into_percentage ⟨200000, 60000⟩ = some ⟨240⟩ := by
    norm_num [Rpm.into_percentage, Percentage.tryFromRat]
  have htgt : percentLookup PUMP_CURVE 59 = some ⟨384⟩ := by
    norm_num [percentLookup, PUMP_CURVE, curveLookup, find_last_point_before_x,
      find_first_point_after_x, List.insertionSort, List.orderedInsert, minByX, maxByX,
      minByStep, maxByStep, Percentage.addP, Percentage.subP, Percentage.scaleP]
  have hpc : pump_controller 59 ⟨200000, 60000⟩ = some ⟨262⟩ := by
    unfold pump_controller
    rw [htgt, hcur]
    show (match Percentage.tryFromRat (apply_feedback (((240 : Int) : ℚ) / 8)
        (((384 : Int) : ℚ) / 8)) with
      | some perc => some perc
      | none => Percentage.tryFromRat (min (max (((240 : Int) : ℚ) / 8) 0) 100)) = _
    have hfeq : apply_feedback (((240 : Int) : ℚ) / 8) (((384 : Int) : ℚ) / 8) = 327 / 10 := by
      unfold apply_feedback PUMP_SENSITIVITY_K
      norm_num
    rw [hfeq]
    have htf : Percentage.tryFromRat (327 / 10) = some ⟨262⟩ := by
      norm_num [Percentage.tryFromRat]
      rw [round_eq]
      norm_num [Int.floor_eq_iff]
    rw [htf]
  have hfan : percentLookup FAN_CURVE 59 = some ⟨120⟩ := by
    norm_num [percentLookup, FAN_CURVE, curveLookup, find_last_point_before_x,
      find_first_point_after_x, List.insertionSort, List.orderedInsert, minByX, maxByX,
      minByStep, maxByStep, Percentage.addP, Percentage.subP, Percentage.scaleP]
  have hvalve : valveLookup VALVE_CURVE 59 = some ValveState.Open := by
    norm_num [valveLookup, VALVE_CURVE, find_last_point_before_x,
      List.insertionSort, List.orderedInsert, minByX, minByStep]
  unfold generate_control_frame
  dsimp only
  rw [hpc, hfan, hvalve]

/-- Counterexample for C5 as stated: at T = 59 °C with the pump at 30%, the
fuser's exact output is fan = 15% (bits 120), pump = 32.75% (bits 262),
valve = Open — the claimed pump of 30% (bits 240) is wrong (and the fan is
nowhere near the claimed 50.2%). -/
theorem C5_counterexample_seed_row3 :
    generate_control_frame ⟨⟨200000, 60000⟩, ⟨180000, 60000⟩, ValveState.Open⟩ ⟨59⟩ =
      some ⟨⟨120⟩, ⟨262⟩, ValveState.Open⟩ ∧
    (Percentage.mk 262) ≠ ⟨240⟩ ∧ (Percentage.mk 120) ≠ ⟨402⟩ :=
  ⟨generate_control_frame_at_59, by decide, by decide⟩

/-- Claim C5, amended: with T = 59 °C and the client pump reporting 30%, the
control fuser computed exactly from the seeded curves produces fan = 15%
(`FAN_CURVE` is flat at 15% below 60 °C), valve = Open, and
pump = 32.75% (the Q13.3 quantisation of `30 + (48 − 30)·0.15 = 32.7`,
with `PUMP_CURVE(59 °C) = 48%`). -/
theorem C5_amended_seed_row3 :
    generate_control_frame ⟨⟨200000, 60000⟩, ⟨180000, 60000⟩, ValveState.Open⟩ ⟨59⟩ =
      some ⟨⟨120⟩, ⟨262⟩, ValveState.Open⟩ :=
  generate_control_frame_at_59
